import Mathlib

/-!
Verification development for the news/stocks dashboard (src/app.py).

The script loads two dataframes (`df_news`, `df_stocks`) and renders three
views: a news view with category/sector membership filters, a stocks view
with sector/stock-name membership filters plus a date-range filter, and a
pivot workspace that calls `pd.pivot_table` on one of the two source
dataframes.  The definitions below are a shallow embedding of those code
paths: dataframes become `Table` (a column list plus a list of rows of
column/scalar pairs), pandas scalars become `Scal` (null / rational number /
string / date), and the pandas calls the script makes (`isin` filtering,
`pd.to_datetime(..., errors='coerce')`, datetime range comparison on an
object column, `pd.pivot_table` with `fill_value=0` and default
`dropna=True`) are modelled by the corresponding functions, with fallible
pandas operations returning `Except`.
-/

/-- Scalar values held in dataframe cells: missing value (NaN/NaT, the
pandas null), a number (pandas numeric dtypes, modelled by ℚ), a string, or
a datetime (modelled by a serial number that is strictly monotone in
(year, month, day)). -/
inductive Scal
  | null
  | num (q : ℚ)
  | str (s : String)
  | date (d : Nat)
deriving DecidableEq, Repr

def Scal.isNull : Scal → Bool
  | .null => true
  | _ => false

def Scal.isNum : Scal → Bool
  | .num _ => true
  | _ => false

def Scal.isStr : Scal → Bool
  | .str _ => true
  | _ => false

def Scal.isDate : Scal → Bool
  | .date _ => true
  | _ => false

def Scal.toQ : Scal → ℚ
  | .num q => q
  | _ => 0

def Scal.toS : Scal → String
  | .str s => s
  | _ => ""

def Scal.toD : Scal → Nat
  | .date d => d
  | _ => 0

/-- Rendering of a scalar as a column label (used for the labels of the
pivoted columns produced by `pd.pivot_table` with a `columns=` argument). -/
def Scal.render : Scal → String
  | .null => "nan"
  | .num q => toString q
  | .str s => s
  | .date d => toString d

/-- A dataframe row: an association list from column name to cell value. -/
abbrev Row := List (String × Scal)

/-- Cell access `row[col]`; rows of a well-formed table carry every column
of the table, so the default is never hit on well-formed data. -/
def Row.get (r : Row) (c : String) : Scal := (List.lookup c r).getD .null

/-- A dataframe: declared column order plus the list of rows. -/
structure Table where
  cols : List String
  rows : List Row
deriving DecidableEq, Repr

/-- pandas dtype test used by `select_dtypes(include='number')`: a column is
numeric when every cell is a number or null (a column containing a string or
a datetime has object/datetime dtype and is not numeric). -/
def Table.isNumericCol (t : Table) (c : String) : Bool :=
  t.rows.all (fun r => (r.get c).isNum || (r.get c).isNull)

/-- Model of `df.select_dtypes(include='number').columns.tolist()`. -/
def Table.numericColumns (t : Table) : List String :=
  t.cols.filter (fun c => t.isNumericCol c)

/-- Model of `df.empty`: true when there are no rows or no columns. -/
def Table.isEmpty (t : Table) : Bool :=
  t.rows.isEmpty || t.cols.isEmpty

/-- Membership filtering `df[df[c].isin(sel)]`. -/
def Table.filterIsin (t : Table) (c : String) (sel : List Scal) : Table :=
  { t with rows := t.rows.filter (fun r => sel.contains (r.get c)) }

/-- Tab 1 of the script: `filtered_news = df_news.copy()`, then
`isin`-filter by `category` when a non-empty category selection exists and
the column is present, then likewise by `sector`. -/
def applyNewsFilters (t : Table) (categories sectors : List Scal) : Table :=
  let f1 := if ¬categories.isEmpty ∧ "category" ∈ t.cols
            then t.filterIsin "category" categories else t
  if ¬sectors.isEmpty ∧ "sector" ∈ f1.cols
  then f1.filterIsin "sector" sectors else f1

def digitVal (c : Char) : Option Nat :=
  if c.isDigit then some (c.toNat - 48) else none

/-- Date-string parsing in the `YYYY-MM-DD` format the dashboard's data
uses; the result is a serial number strictly monotone in (year, month, day),
so range comparisons between parsed dates agree with calendar order. -/
def parseDate (s : String) : Option Nat :=
  match s.data with
  | [y1, y2, y3, y4, h1, m1, m2, h2, d1, d2] =>
    if h1 = '-' ∧ h2 = '-' then
      match digitVal y1, digitVal y2, digitVal y3, digitVal y4,
            digitVal m1, digitVal m2, digitVal d1, digitVal d2 with
      | some a, some b, some c, some d, some e, some f, some g, some h =>
        let y := ((a * 10 + b) * 10 + c) * 10 + d
        let mo := e * 10 + f
        let dy := g * 10 + h
        if 1 ≤ mo ∧ mo ≤ 12 ∧ 1 ≤ dy ∧ dy ≤ 31
        then some (y * 416 + mo * 32 + dy) else none
      | _, _, _, _, _, _, _, _ => none
    else none
  | _ => none

/-- Model of `pd.to_datetime(v, errors='coerce')` on one cell: datetimes pass
through, parseable date strings become datetimes, unparseable strings become
null (NaT), null stays null, and a number is interpreted as an epoch offset
(modelled by its floor clamped to ℕ). -/
def Scal.toDatetime : Scal → Scal
  | .null => .null
  | .date d => .date d
  | .str s =>
    match parseDate s with
    | some d => .date d
    | none => .null
  | .num q => .date (max q.floor 0).toNat

/-- In-place column coercion `df['date'] = pd.to_datetime(df['date'],
errors='coerce')`: every cell stored under the `date` column is replaced by
its coerced value; all other cells are untouched. -/
def Table.coerceDateCol (t : Table) : Table :=
  { t with rows := t.rows.map (fun r =>
      r.map (fun p => if p.1 = "date" then (p.1, p.2.toDatetime) else p)) }

/-- Failure modes of the tab-2 filtering code: a missing column subscript
(`KeyError`) and the `TypeError` pandas raises when an object-dtype column
holding strings or numbers is compared against a `Timestamp`. -/
inductive FiltErr
  | keyError (c : String)
  | typeError
deriving DecidableEq, Repr

/-- One membership-filter step of tab 2: `if sel: filtered =
filtered[filtered[c].isin(sel)]`.  The column subscript raises `KeyError`
when the column is absent (the widgets guarantee an empty selection in that
case, but the filtering code itself has no column check). -/
def memFilter (t : Table) (c : String) (sel : List Scal) : Except FiltErr Table :=
  if sel.isEmpty then .ok t
  else if c ∈ t.cols then .ok (t.filterIsin c sel)
  else .error (.keyError c)

/-- Elementwise `series >= start and series <= end` against `Timestamp`
bounds, on the raw (uncoerced) cell: datetimes compare normally, null (NaT)
compares false, and a string or number cell raises `TypeError` exactly as an
object-dtype comparison does in pandas. -/
def inDateRange (v : Scal) (s e : Nat) : Except FiltErr Bool :=
  match v with
  | .date d => .ok (decide (s ≤ d) && decide (d ≤ e))
  | .null => .ok false
  | .str _ => .error .typeError
  | .num _ => .error .typeError

/-- Filtering a list by a fallible predicate; an error on any element
propagates (a pandas comparison raises for the whole series at once). -/
def filterE {α ε : Type} (p : α → Except ε Bool) : List α → Except ε (List α)
  | [] => .ok []
  | x :: xs =>
    match p x with
    | .error e => .error e
    | .ok b =>
      match filterE p xs with
      | .error e => .error e
      | .ok rest => .ok (if b then x :: rest else rest)

/-- The user-chosen predicates of the stocks view: the two multiselect
selections and the date-range picker value (none when the widget did not
yield a two-element range, in which case the code skips the date filter). -/
structure StockPreds where
  sectors : List Scal
  names : List Scal
  range : Option (Nat × Nat)
deriving DecidableEq, Repr

/-- The filtered table produced by tab 2: membership filters on the copied
frame, then — when the source has a `date` column and the picker yielded a
range — the range comparison on the copy's (uncoerced) `date` cells.  The
in-place coercion at line 86 targets `df_stocks`, not `filtered_stocks`,
so it does not show up in this value (see `stocksSourceAfter`). -/
def applyStockFilters (t : Table) (p : StockPreds) : Except FiltErr Table :=
  match memFilter t "sector" p.sectors with
  | .error e => .error e
  | .ok f1 =>
    match memFilter f1 "stock_name" p.names with
    | .error e => .error e
    | .ok f2 =>
      if "date" ∈ t.cols then
        match p.range with
        | some (s, e) =>
          match filterE (fun r => inDateRange (r.get "date") s e) f2.rows with
          | .error err => .error err
          | .ok rs => .ok { f2 with rows := rs }
        | none => .ok f2
      else .ok f2

/-- The state of the `df_stocks` source after tab 2 runs: whenever the
source has a `date` column, line 86 overwrites that column with the coerced
values (independently of any selection); otherwise it is untouched. -/
def stocksSourceAfter (t : Table) : Table :=
  if "date" ∈ t.cols then t.coerceDateCol else t

/-- The whole tab-2 filtering step as a state transformer: the (possibly
mutated) source together with the filtered result. -/
def tab2Step (t : Table) (p : StockPreds) : Table × Except FiltErr Table :=
  (stocksSourceAfter t, applyStockFilters t p)

/-- The aggregation functions tab 3 offers. -/
inductive AggFn
  | sum | mean | count | max | min
deriving DecidableEq, Repr

/-- The pivot parameters assembled by tab 3's selectboxes. -/
structure PivotSpec where
  index : String
  group : Option String
  values : String
  agg : AggFn
deriving DecidableEq, Repr

/-- Failure modes of `pd.pivot_table` as the script calls it: `KeyError`
for an absent column, `ValueError` for a grouper used twice (index equal to
columns), and the `TypeError`/`DataError` family raised when an aggregation
cannot handle the value column's cells. -/
inductive PivotErr
  | keyError (c : String)
  | grouperError
  | aggError
deriving DecidableEq, Repr

/-- The pivot output: the index column's name, the labels of the value
columns, and one output row per index value (index value paired with the
cell list, one cell per value column). -/
structure PivotResult where
  indexName : String
  colNames : List String
  rows : List (Scal × List Scal)
deriving DecidableEq, Repr

def qMaxL (q : ℚ) (qs : List ℚ) : ℚ := qs.foldl Max.max q

def qMinL (q : ℚ) (qs : List ℚ) : ℚ := qs.foldl Min.min q

def sMaxL (s : String) (ss : List String) : String := ss.foldl Max.max s

def sMinL (s : String) (ss : List String) : String := ss.foldl Min.min s

/-- pandas groupby aggregation of one partition's value cells, with pandas
`skipna` semantics: nulls are dropped first; `count` is the number of
non-null cells; `sum` of no cells is 0, of numbers their total, of strings
their concatenation; `mean` of no cells is NaN (null), of numbers their
average; `max`/`min` of no cells is NaN, of numbers/strings/datetimes the
extremum; a partition mixing cell kinds raises. -/
def aggValues (f : AggFn) (vs : List Scal) : Except PivotErr Scal :=
  let nn := vs.filter (fun v => !v.isNull)
  match f with
  | .count => .ok (.num nn.length)
  | .sum =>
    if nn.isEmpty then .ok (.num 0)
    else if nn.all Scal.isNum then .ok (.num ((nn.map Scal.toQ).sum))
    else if nn.all Scal.isStr then .ok (.str (String.join (nn.map Scal.toS)))
    else .error .aggError
  | .mean =>
    if nn.isEmpty then .ok .null
    else if nn.all Scal.isNum then
      .ok (.num ((nn.map Scal.toQ).sum / nn.length))
    else .error .aggError
  | .max =>
    match nn with
    | [] => .ok .null
    | v :: rest =>
      if (v :: rest).all Scal.isNum then
        .ok (.num (qMaxL v.toQ (rest.map Scal.toQ)))
      else if (v :: rest).all Scal.isStr then
        .ok (.str (sMaxL v.toS (rest.map Scal.toS)))
      else if (v :: rest).all Scal.isDate then
        .ok (.date ((rest.map Scal.toD).foldl Max.max v.toD))
      else .error .aggError
  | .min =>
    match nn with
    | [] => .ok .null
    | v :: rest =>
      if (v :: rest).all Scal.isNum then
        .ok (.num (qMinL v.toQ (rest.map Scal.toQ)))
      else if (v :: rest).all Scal.isStr then
        .ok (.str (sMinL v.toS (rest.map Scal.toS)))
      else if (v :: rest).all Scal.isDate then
        .ok (.date ((rest.map Scal.toD).foldl Min.min v.toD))
      else .error .aggError

/-- Total order used for the sorted pivot axes (`pd.pivot_table` sorts the
grouped keys): constructor rank first, then the value's own order. -/
def Scal.leB : Scal → Scal → Bool
  | .null, _ => true
  | .num _, .null => false
  | .num a, .num b => a ≤ b
  | .num _, _ => true
  | .str _, .null => false
  | .str _, .num _ => false
  | .str a, .str b => a ≤ b
  | .str _, .date _ => true
  | .date _, .null => false
  | .date _, .num _ => false
  | .date _, .str _ => false
  | .date a, .date b => a ≤ b

def insertScal (a : Scal) : List Scal → List Scal
  | [] => [a]
  | b :: bs => if a.leB b then a :: b :: bs else b :: insertScal a bs

/-- Insertion sort by `Scal.leB`, modelling the ascending key order of the
pivoted axes. -/
def sortScal : List Scal → List Scal
  | [] => []
  | a :: as => insertScal a (sortScal as)

/-- Mapping a fallible function over a list, propagating the first error. -/
def mapE {α β ε : Type} (f : α → Except ε β) : List α → Except ε (List β)
  | [] => .ok []
  | x :: xs =>
    match f x with
    | .error e => .error e
    | .ok b =>
      match mapE f xs with
      | .error e => .error e
      | .ok rest => .ok (b :: rest)

/-- The source rows that survive the groupby key handling inside
`pd.pivot_table` (default `dropna=True`): rows whose index key — and group
key, when grouping — is null are dropped before aggregation. -/
def keyFilteredRows (t : Table) (s : PivotSpec) : List Row :=
  match s.group with
  | none => t.rows.filter (fun r => !(r.get s.index).isNull)
  | some g => t.rows.filter (fun r =>
      !(r.get s.index).isNull && !(r.get g).isNull)

/-- Model of `pd.pivot_table(df_source, index=index, columns=columns or None,
values=values, aggfunc=aggfunc, fill_value=0)` with pandas defaults
(`dropna=True`, sorted keys): check the `values` and key columns, group the
key-complete rows by the key tuple, aggregate each observed partition, drop
partitions whose aggregate is NaN (the pre-unstack `dropna(how='all')`),
lay the remaining keys out as a dense sorted grid, and fill the cells with
no surviving aggregate with `fill_value` 0. -/
def pivotTable (t : Table) (s : PivotSpec) : Except PivotErr PivotResult :=
  if s.values ∉ t.cols then .error (.keyError s.values)
  else if s.index ∉ t.cols then .error (.keyError s.index)
  else
    match s.group with
    | none =>
      let rows' := keyFilteredRows t s
      let keys := (rows'.map (fun r => r.get s.index)).dedup
      (mapE (fun k =>
          (aggValues s.agg ((rows'.filter (fun r => r.get s.index = k)).map
            (fun r => r.get s.values))).map (fun v => (k, v))) keys).map
        (fun agged =>
          let kept := agged.filter (fun kv => !kv.2.isNull)
          let idxVals := sortScal (kept.map (fun kv => kv.1)).dedup
          { indexName := s.index
            colNames := [s.values]
            rows := idxVals.map (fun i =>
              (i, [(List.lookup i kept).getD (.num 0)])) })
    | some g =>
      if g ∉ t.cols then .error (.keyError g)
      else if g = s.index then .error .grouperError
      else
        let rows' := keyFilteredRows t s
        let keys := (rows'.map (fun r => (r.get s.index, r.get g))).dedup
        (mapE (fun k =>
            (aggValues s.agg
              ((rows'.filter (fun r => (r.get s.index, r.get g) = k)).map
                (fun r => r.get s.values))).map (fun v => (k, v))) keys).map
          (fun agged =>
            let kept := agged.filter (fun kv => !kv.2.isNull)
            let idxVals := sortScal (kept.map (fun kv => kv.1.1)).dedup
            let grpVals := sortScal (kept.map (fun kv => kv.1.2)).dedup
            { indexName := s.index
              colNames := grpVals.map Scal.render
              rows := idxVals.map (fun i =>
                (i, grpVals.map (fun gv =>
                  (List.lookup (i, gv) kept).getD (.num 0)))) })

/-- Sum of all numeric cells of a pivot result. -/
def PivotResult.cellSum (P : PivotResult) : ℚ :=
  ((P.rows.map (fun pr => pr.2)).flatten.map Scal.toQ).sum

/-- What the pivot workspace displays after the Generate button: the
empty-dataset warning, the pivot result, or — for any pivot failure caught
by the `except` branch — the inline error message. -/
inductive Tab3Out
  | emptyWarn
  | shown (P : PivotResult)
  | errMsg (e : PivotErr)
deriving DecidableEq, Repr

/-- Tab 3 of the script: warn when the selected source is empty, otherwise
run `pd.pivot_table` inside `try`, showing the result on success and the
error message on any exception. -/
def tab3Render (src : Table) (s : PivotSpec) : Tab3Out :=
  if src.isEmpty then .emptyWarn
  else
    match pivotTable src s with
    | .ok P => .shown P
    | .error e => .errMsg e

/-- The whole dashboard run: the news view's filtered table, the stocks
view's step (mutated source and filtered result), and the pivot workspace's
output on the chosen source (`true` selects News). -/
def dashboardRender (news stocks : Table) (categories sectors : List Scal)
    (p : StockPreds) (choice : Bool) (spec : PivotSpec) :
    Table × (Table × Except FiltErr Table) × Tab3Out :=
  (applyNewsFilters news categories sectors,
   tab2Step stocks p,
   tab3Render (if choice then news else stocks) spec)

/-- In tab 3 the index selector offers `all_columns`, the optional group
selector offers `[None] + all_columns`, and the values selector offers
`numeric_columns` of the chosen source, so these are exactly the pivot
specifications a user can assemble. -/
def uiConstructible (t : Table) (s : PivotSpec) : Prop :=
  s.index ∈ t.cols ∧ (∀ g, s.group = some g → g ∈ t.cols) ∧
    s.values ∈ t.numericColumns

/-- The two-row stocks table of the specification's scenarios, with the
date cells as the date strings the scenario writes. -/
def stocksScenario : Table :=
  { cols := ["sector", "stock_name", "date", "price"]
    rows :=
      [[("sector", .str "Tech"), ("stock_name", .str "A"),
        ("date", .str "2024-01-01"), ("price", .num 10)],
       [("sector", .str "Tech"), ("stock_name", .str "B"),
        ("date", .str "2024-01-02"), ("price", .num 20)]] }

/-- The same two-row stocks table with the date column already of datetime
dtype (as `read_excel` yields for genuine Excel date cells). -/
def stocksScenarioDt : Table :=
  { cols := ["sector", "stock_name", "date", "price"]
    rows :=
      [[("sector", .str "Tech"), ("stock_name", .str "A"),
        ("date", .date 842017), ("price", .num 10)],
       [("sector", .str "Tech"), ("stock_name", .str "B"),
        ("date", .date 842018), ("price", .num 20)]] }

/-- A one-row table whose value column is null: the `count` aggregation
disagreement between the claim and `pd.pivot_table` shows up here. -/
def nullValueTable : Table :=
  { cols := ["a", "v"]
    rows := [[("a", .str "x"), ("v", .null)]] }

/-- A one-row table whose value column holds a string. -/
def strValueTable : Table :=
  { cols := ["a", "v"]
    rows := [[("a", .str "x"), ("v", .str "w")]] }

/-- A one-row table whose index column is null. -/
def nullIndexTable : Table :=
  { cols := ["a", "g", "v"]
    rows := [[("a", .null), ("g", .str "x"), ("v", .num 1)]] }

/-- A small grouped table used by witnesses: two index values, two group
values, one combination absent. -/
def groupedTable : Table :=
  { cols := ["a", "g", "v"]
    rows :=
      [[("a", .str "x"), ("g", .str "p"), ("v", .num 1)],
       [("a", .str "x"), ("g", .str "q"), ("v", .num 2)],
       [("a", .str "y"), ("g", .str "p"), ("v", .num 3)]] }

/-- Decidable equality on `Except`, so concrete runs of the fallible
pandas operations can be checked by `decide`. -/
instance {ε α : Type} [DecidableEq ε] [DecidableEq α] : DecidableEq (Except ε α) :=
  fun x y =>
    match x, y with
    | .error u, .error v =>
      if h : u = v then .isTrue (by rw [h]) else .isFalse (by simp [h])
    | .error _, .ok _ => .isFalse (by simp)
    | .ok _, .error _ => .isFalse (by simp)
    | .ok u, .ok v =>
      if h : u = v then .isTrue (by rw [h]) else .isFalse (by simp [h])

/-- Count of rows of the partition of one index value under an ungrouped
pivot whose value cell is non-null: what one `count` pivot cell is. -/
def countCell1 (t : Table) (s : PivotSpec) (i : Scal) : Nat :=
  (((keyFilteredRows t s).filter (fun r => r.get s.index = i)).filter
    (fun r => !(r.get s.values).isNull)).length

/-- Count of rows of one (index value, group value) partition whose value
cell is non-null: what one grouped `count` pivot cell is. -/
def countCell2 (t : Table) (s : PivotSpec) (g : String) (k : Scal × Scal) : Nat :=
  (((keyFilteredRows t s).filter (fun r => (r.get s.index, r.get g) = k)).filter
    (fun r => !(r.get s.values).isNull)).length

/-- Number of rows counted at all by a `count` pivot: key columns non-null
(per `keyFilteredRows`) and value cell non-null. -/
def countedRows (t : Table) (s : PivotSpec) : Nat :=
  ((keyFilteredRows t s).filter (fun r => !(r.get s.values).isNull)).length

/-- Total wrapper of the aggregation of one (index, group) partition: the
aggregated scalar, null when the aggregation raises.  Only used to state
structural facts about `pivotTable`. -/
def aggOf (t : Table) (s : PivotSpec) (g : String) (k : Scal × Scal) : Scal :=
  match aggValues s.agg (((keyFilteredRows t s).filter
      (fun r => (r.get s.index, r.get g) = k)).map (fun r => r.get s.values)) with
  | .ok v => v
  | .error _ => .null

unseal Rat.add

/-- C7: applying the filter engine with every predicate inert (empty
membership selections, no active date range) returns the input table
unchanged, on both the news and the stocks filtering paths. -/
theorem claim_c7_inert_filters_identity (T : Table) :
    applyNewsFilters T [] [] = T ∧
      applyStockFilters T { sectors := [], names := [], range := none } = .ok T := by
  refine ⟨by simp [applyNewsFilters], ?_⟩
  have h1 : memFilter T "sector" ([] : List Scal) = .ok T := by simp [memFilter]
  have h2 : memFilter T "stock_name" ([] : List Scal) = .ok T := by simp [memFilter]
  simp only [applyStockFilters, h1, h2]
  split <;> rfl

/-- C8: on the two-row stocks scenario table, the pivot with index
`sector`, no group column, value `price` and aggregation `sum` yields the
single row (Tech, 30) with exactly one value column next to the index. -/
theorem claim_c8_scenario_sum_pivot :
    pivotTable stocksScenario
        { index := "sector", group := none, values := "price", agg := .sum } =
      .ok { indexName := "sector", colNames := ["price"],
            rows := [(.str "Tech", [.num 30])] } := by
  decide

/-- C1 is false as stated: on a one-row table whose value cell is null, the
`count` pivot cell for the (single, one-row) partition is 0, not 1, and the
cells sum to 0 while the table has 1 row — `pd.pivot_table` counts non-null
value cells, not all partition rows. -/
theorem claim_c1_counterexample :
    pivotTable nullValueTable
        { index := "a", group := none, values := "v", agg := .count } =
      .ok { indexName := "a", colNames := ["v"], rows := [(.str "x", [.num 0])] } ∧
    nullValueTable.rows.length = 1 := by
  exact ⟨rfl, rfl⟩

/-- C2 is false as stated: running the stocks filtering step with every
predicate inert already rewrites the source's `date` column in place
(string dates are coerced to datetimes inside `df_stocks` itself), so the
source table is mutated. -/
theorem claim_c2_counterexample :
    (tab2Step stocksScenario { sectors := [], names := [], range := none }).1 ≠
      stocksScenario := by
  decide

/-- C3 is false as stated: a `count` pivot over a non-numeric (string)
value column succeeds instead of failing. -/
theorem claim_c3_counterexample :
    strValueTable.isNumericCol "v" = false ∧
    pivotTable strValueTable
        { index := "a", group := none, values := "v", agg := .count } =
      .ok { indexName := "a", colNames := ["v"], rows := [(.str "x", [.num 1])] } := by
  exact ⟨rfl, rfl⟩

/-- C4 is false as stated: on a table whose single row has a null index
key, the index column has one distinct value, yet the grouped pivot result
has zero rows (and zero value columns) because `pd.pivot_table` drops rows
with null grouping keys. -/
theorem claim_c4_counterexample :
    ((nullIndexTable.rows.map (fun r => r.get "a")).dedup).length = 1 ∧
    pivotTable nullIndexTable
        { index := "a", group := some "g", values := "v", agg := .sum } =
      .ok { indexName := "a", colNames := [], rows := [] } := by
  exact ⟨rfl, rfl⟩

/-- C5: evaluating the stocks filtering code on the specification's
two-row scenario (string-typed dates, range 2024-01-02..2024-01-02) raises
`TypeError` instead of returning the "B" row: the coercion at line 86
targets `df_stocks` after `filtered_stocks` was copied, so the range
comparison runs on uncoerced string cells. -/
theorem claim_c5_code_eval :
    applyStockFilters stocksScenario
        { sectors := [], names := [], range := some (842018, 842018) } =
      .error .typeError ∧
    applyStockFilters stocksScenarioDt
        { sectors := [], names := [], range := some (842018, 842018) } =
      .ok { cols := ["sector", "stock_name", "date", "price"],
            rows := [[("sector", .str "Tech"), ("stock_name", .str "B"),
                      ("date", .date 842018), ("price", .num 20)]] } := by
  exact ⟨rfl, rfl⟩

theorem filterIsin_cols (t : Table) (c : String) (sel : List Scal) :
    (t.filterIsin c sel).cols = t.cols := rfl

theorem mem_filterIsin_rows {t : Table} {c : String} {sel : List Scal} {r : Row}
    (h : r ∈ (t.filterIsin c sel).rows) :
    r ∈ t.rows ∧ sel.contains (r.get c) = true := by
  simpa [Table.filterIsin, List.mem_filter] using h

theorem filterIsin_of_all {t : Table} {c : String} {sel : List Scal}
    (h : ∀ r ∈ t.rows, sel.contains (r.get c) = true) :
    t.filterIsin c sel = t := by
  cases t with
  | mk cols rows =>
    simp only [Table.filterIsin, Table.mk.injEq, true_and]
    exact List.filter_eq_self.mpr (fun r hr => h r hr)

theorem filterE_ok_mem {α ε : Type} {p : α → Except ε Bool} {l r : List α}
    (h : filterE p l = .ok r) : ∀ x ∈ r, p x = .ok true ∧ x ∈ l := by
  induction l generalizing r with
  | nil =>
    simp only [filterE] at h
    cases h
    simp
  | cons a as ih =>
    rw [filterE] at h
    cases hpa : p a with
    | error e => rw [hpa] at h; cases h
    | ok b =>
      rw [hpa] at h
      cases hrec : filterE p as with
      | error e => rw [hrec] at h; cases h
      | ok rest =>
        rw [hrec] at h
        cases b with
        | false =>
          simp only [if_neg] at h
          cases h
          intro x hx
          obtain ⟨h1, h2⟩ := ih hrec x hx
          exact ⟨h1, List.mem_cons_of_mem _ h2⟩
        | true =>
          simp only [if_pos] at h
          cases h
          intro x hx
          rcases List.mem_cons.mp hx with hx | hx
          · subst hx; exact ⟨hpa, List.mem_cons_self _ _⟩
          · obtain ⟨h1, h2⟩ := ih hrec x hx
            exact ⟨h1, List.mem_cons_of_mem _ h2⟩

theorem filterE_all_true {α ε : Type} {p : α → Except ε Bool} {l : List α}
    (h : ∀ x ∈ l, p x = .ok true) : filterE p l = .ok l := by
  induction l with
  | nil => rfl
  | cons a as ih =>
    rw [filterE, h a (List.mem_cons_self _ _),
      ih (fun x hx => h x (List.mem_cons_of_mem _ hx))]
    simp

theorem memFilter_ok_cols {t u : Table} {c : String} {sel : List Scal}
    (h : memFilter t c sel = .ok u) : u.cols = t.cols := by
  rw [memFilter] at h
  split at h
  · cases h; rfl
  · split at h
    · cases h; rfl
    · cases h

theorem memFilter_ok_cond {t u : Table} {c : String} {sel : List Scal}
    (h : memFilter t c sel = .ok u) : sel.isEmpty = true ∨ c ∈ t.cols := by
  rw [memFilter] at h
  split at h
  · exact Or.inl (by assumption)
  · split at h
    · exact Or.inr (by assumption)
    · cases h

theorem memFilter_ok_rows {t u : Table} {c : String} {sel : List Scal}
    (h : memFilter t c sel = .ok u) :
    ∀ r ∈ u.rows, r ∈ t.rows ∧ (sel.isEmpty = true ∨ sel.contains (r.get c) = true) := by
  rw [memFilter] at h
  split at h
  · cases h
    exact fun r hr => ⟨hr, Or.inl (by assumption)⟩
  · split at h
    · cases h
      intro r hr
      obtain ⟨h1, h2⟩ := mem_filterIsin_rows hr
      exact ⟨h1, Or.inr h2⟩
    · cases h

theorem memFilter_self {t : Table} {c : String} {sel : List Scal}
    (hcol : sel.isEmpty = true ∨ c ∈ t.cols)
    (h : ∀ r ∈ t.rows, sel.isEmpty = true ∨ sel.contains (r.get c) = true) :
    memFilter t c sel = .ok t := by
  rw [memFilter]
  by_cases he : sel.isEmpty
  · rw [if_pos he]
  · rw [if_neg he]
    have hc : c ∈ t.cols := hcol.resolve_left he
    rw [if_pos hc, filterIsin_of_all (fun r hr => (h r hr).resolve_left he)]

theorem applyNewsFilters_idem (t : Table) (cs ss : List Scal) :
    applyNewsFilters (applyNewsFilters t cs ss) cs ss = applyNewsFilters t cs ss := by
  by_cases hC : ¬cs.isEmpty ∧ "category" ∈ t.cols <;>
    by_cases hS : ¬ss.isEmpty ∧ "sector" ∈ t.cols
  · simp only [applyNewsFilters, filterIsin_cols, if_pos hC, if_pos hS]
    have hA : ((t.filterIsin "category" cs).filterIsin "sector" ss).filterIsin "category" cs
        = (t.filterIsin "category" cs).filterIsin "sector" ss :=
      filterIsin_of_all (fun r hr =>
        (mem_filterIsin_rows ((mem_filterIsin_rows hr).1)).2)
    rw [hA]
    exact filterIsin_of_all (fun r hr => (mem_filterIsin_rows hr).2)
  · simp only [applyNewsFilters, filterIsin_cols, if_pos hC, if_neg hS]
    exact filterIsin_of_all (fun r hr => (mem_filterIsin_rows hr).2)
  · simp only [applyNewsFilters, filterIsin_cols, if_neg hC, if_pos hS]
    exact filterIsin_of_all (fun r hr => (mem_filterIsin_rows hr).2)
  · simp only [applyNewsFilters, filterIsin_cols, if_neg hC, if_neg hS]

theorem applyStockFilters_idem {T F : Table} {p : StockPreds}
    (h : applyStockFilters T p = .ok F) : applyStockFilters F p = .ok F := by
  rw [applyStockFilters] at h
  cases h1 : memFilter T "sector" p.sectors with
  | error e => rw [h1] at h; cases h
  | ok f1 =>
    simp only [h1] at h
    cases h2 : memFilter f1 "stock_name" p.names with
    | error e => simp only [h2] at h; cases h
    | ok f2 =>
      simp only [h2] at h
      have hc1 : f1.cols = T.cols := memFilter_ok_cols h1
      have hc2 : f2.cols = f1.cols := memFilter_ok_cols h2
      -- facts about any row of f2
      have hpass2 : ∀ r ∈ f2.rows,
          (r ∈ T.rows ∧ (p.sectors.isEmpty = true ∨ p.sectors.contains (r.get "sector") = true)) ∧
          (p.names.isEmpty = true ∨ p.names.contains (r.get "stock_name") = true) := by
        intro r hr
        obtain ⟨hr1, hn⟩ := memFilter_ok_rows h2 r hr
        exact ⟨memFilter_ok_rows h1 r hr1, hn⟩
      by_cases hd : "date" ∈ T.cols
      · rw [if_pos hd] at h
        cases hrg : p.range with
        | none =>
          simp only [hrg] at h
          cases h
          have hm1 : memFilter F "sector" p.sectors = .ok F :=
            memFilter_self ((memFilter_ok_cond h1).imp id
                (fun hx => (hc2.trans hc1).symm ▸ hx))
              (fun r hr => ((hpass2 r hr).1).2)
          have hm2 : memFilter F "stock_name" p.names = .ok F :=
            memFilter_self ((memFilter_ok_cond h2).imp id (fun hx => hc2.symm ▸ hx))
              (fun r hr => (hpass2 r hr).2)
          have hdF : "date" ∈ F.cols := by rw [hc2, hc1]; exact hd
          simp only [applyStockFilters, hm1, hm2, hdF, if_true, hrg]
        | some se =>
          obtain ⟨s, e⟩ := se
          simp only [hrg] at h
          cases h3 : filterE (fun r => inDateRange (r.get "date") s e) f2.rows with
          | error err => simp only [h3] at h; cases h
          | ok rs =>
            simp only [h3] at h
            cases h
            -- F = { f2 with rows := rs }
            have hrs : ∀ r ∈ rs, inDateRange (r.get "date") s e = .ok true ∧ r ∈ f2.rows :=
              filterE_ok_mem h3
            have hm1 : memFilter { cols := f2.cols, rows := rs } "sector" p.sectors =
                .ok { cols := f2.cols, rows := rs } :=
              memFilter_self ((memFilter_ok_cond h1).imp id
                  (fun hx => (hc2.trans hc1).symm ▸ hx))
                (fun r hr => ((hpass2 r (hrs r hr).2).1).2)
            have hm2 : memFilter { cols := f2.cols, rows := rs } "stock_name" p.names =
                .ok { cols := f2.cols, rows := rs } :=
              memFilter_self ((memFilter_ok_cond h2).imp id (fun hx => hc2.symm ▸ hx))
                (fun r hr => (hpass2 r (hrs r hr).2).2)
            have hdF : "date" ∈ Table.cols { cols := f2.cols, rows := rs } := by
              show "date" ∈ f2.cols
              rw [hc2, hc1]; exact hd
            have h4 : filterE (fun r => inDateRange (r.get "date") s e) rs = .ok rs :=
              filterE_all_true (fun r hr => (hrs r hr).1)
            simp only [applyStockFilters, hm1, hm2, hdF, if_true, hrg, h4]
      · rw [if_neg hd] at h
        cases h
        have hm1 : memFilter F "sector" p.sectors = .ok F :=
          memFilter_self ((memFilter_ok_cond h1).imp id
              (fun hx => (hc2.trans hc1).symm ▸ hx))
            (fun r hr => ((hpass2 r hr).1).2)
        have hm2 : memFilter F "stock_name" p.names = .ok F :=
          memFilter_self ((memFilter_ok_cond h2).imp id (fun hx => hc2.symm ▸ hx))
            (fun r hr => (hpass2 r hr).2)
        have hdF : "date" ∉ F.cols := by rw [hc2, hc1]; exact hd
        simp only [applyStockFilters, hm1, hm2, hdF, if_false]

/-- C9: filtering is idempotent — re-running the news filters on their own
output changes nothing, and whenever the stocks filtering succeeds with
result `F`, running it again on `F` with the same predicates returns `F`. -/
theorem claim_c9_filter_idempotent (T : Table) (cs ss : List Scal)
    (p : StockPreds) (F : Table) (h : applyStockFilters T p = .ok F) :
    applyNewsFilters (applyNewsFilters T cs ss) cs ss = applyNewsFilters T cs ss ∧
      applyStockFilters F p = .ok F :=
  ⟨applyNewsFilters_idem T cs ss, applyStockFilters_idem h⟩

/-- C9 witness: the idempotence theorem applied to the datetime-typed
scenario table with an active date range. -/
theorem claim_c9_witness :
    applyNewsFilters (applyNewsFilters stocksScenarioDt [.str "x"] [.str "Tech"])
        [.str "x"] [.str "Tech"] =
      applyNewsFilters stocksScenarioDt [.str "x"] [.str "Tech"] ∧
    applyStockFilters
        { cols := ["sector", "stock_name", "date", "price"],
          rows := [[("sector", .str "Tech"), ("stock_name", .str "B"),
                    ("date", .date 842018), ("price", .num 20)]] }
        { sectors := [], names := [], range := some (842018, 842018) } =
      .ok { cols := ["sector", "stock_name", "date", "price"],
            rows := [[("sector", .str "Tech"), ("stock_name", .str "B"),
                      ("date", .date 842018), ("price", .num 20)]] } :=
  claim_c9_filter_idempotent stocksScenarioDt [.str "x"] [.str "Tech"]
    { sectors := [], names := [], range := some (842018, 842018) }
    { cols := ["sector", "stock_name", "date", "price"],
      rows := [[("sector", .str "Tech"), ("stock_name", .str "B"),
                ("date", .date 842018), ("price", .num 20)]] }
    (by decide)

theorem map_eq_self_of_fix {α : Type} {f : α → α} {l : List α}
    (h : ∀ x ∈ l, f x = x) : l.map f = l := by
  induction l with
  | nil => rfl
  | cons a as ih =>
    rw [List.map_cons, h a (List.mem_cons_self _ _),
      ih (fun x hx => h x (List.mem_cons_of_mem _ hx))]

theorem lookup_coerce_ne {r : Row} {c : String} (hc : c ≠ "date") :
    List.lookup c (r.map (fun p => if p.1 = "date" then (p.1, p.2.toDatetime) else p)) =
      List.lookup c r := by
  induction r with
  | nil => rfl
  | cons p ps ih =>
    obtain ⟨k, v⟩ := p
    by_cases hp : k = "date"
    · subst hp
      have hne : (c == "date") = false := by simp [hc]
      simp only [List.map_cons, List.lookup_cons]
      simp [List.lookup_cons, hne, ih]
    · simp only [List.map_cons, if_neg hp, List.lookup_cons]
      cases hck : c == k <;> simp [hck, ih]

theorem coerceDateCol_rows_get {t : Table} {c : String} (hc : c ≠ "date") :
    t.coerceDateCol.rows.map (fun r => r.get c) = t.rows.map (fun r => r.get c) := by
  cases t with
  | mk cols rows =>
    show (rows.map _).map _ = _
    rw [List.map_map]
    apply List.map_congr_left
    intro r _
    show ((r.map _).lookup c).getD .null = (List.lookup c r).getD .null
    rw [show (r.map fun p => if p.1 = "date" then (p.1, p.2.toDatetime) else p).lookup c
        = List.lookup c r from lookup_coerce_ne hc]

theorem coerceDateCol_id {t : Table}
    (h : ∀ r ∈ t.rows, ∀ pa ∈ r, pa.1 = "date" → (pa.2.isDate || pa.2.isNull) = true) :
    t.coerceDateCol = t := by
  cases t with
  | mk cols rows =>
    simp only [Table.coerceDateCol, Table.mk.injEq, true_and]
    apply map_eq_self_of_fix
    intro r hr
    apply map_eq_self_of_fix
    intro pa hpa
    by_cases hp : pa.1 = "date"
    · rw [if_pos hp]
      have ht : pa.2.toDatetime = pa.2 := by
        have := h r hr pa hpa hp
        cases hv : pa.2 <;> simp [hv, Scal.isDate, Scal.isNull] at this ⊢ <;> rfl
      rw [ht]
    · rw [if_neg hp]

/-- C2 amended: the news path and the stocks membership filters return
fresh tables without touching their input, but the date step of the stocks
view overwrites the source's `date` column in place.  Precisely: the source
is unchanged when it has no `date` column, or when that column already
holds datetime/null cells (coercion is then the identity); in every case
the mutation is confined to the `date` column — the column list and every
other column's cells are preserved. -/
theorem claim_c2_amended (T : Table) (p : StockPreds) :
    ("date" ∉ T.cols → (tab2Step T p).1 = T) ∧
    ((∀ r ∈ T.rows, ∀ pa ∈ r, pa.1 = "date" → (pa.2.isDate || pa.2.isNull) = true) →
      (tab2Step T p).1 = T) ∧
    ((tab2Step T p).1.cols = T.cols) ∧
    (∀ c, c ≠ "date" → (tab2Step T p).1.rows.map (fun r => r.get c) =
      T.rows.map (fun r => r.get c)) := by
  refine ⟨?_, ?_, ?_, ?_⟩
  · intro hd
    show stocksSourceAfter T = T
    rw [stocksSourceAfter, if_neg hd]
  · intro h
    show stocksSourceAfter T = T
    rw [stocksSourceAfter]
    split
    · exact coerceDateCol_id h
    · rfl
  · show (stocksSourceAfter T).cols = T.cols
    rw [stocksSourceAfter]
    split <;> rfl
  · intro c hc
    show (stocksSourceAfter T).rows.map _ = _
    rw [stocksSourceAfter]
    split
    · exact coerceDateCol_rows_get hc
    · rfl

/-- C2 witness: the amended mutation description evaluated on concrete
tables — a stocks table without a `date` column is unchanged, the
datetime-typed scenario table is unchanged, and on the string-dated
scenario table the `price` column survives the date-column mutation. -/
theorem claim_c2_witness :
    (tab2Step { cols := ["sector"], rows := [[("sector", .str "T")]] }
        { sectors := [], names := [], range := none }).1 =
      { cols := ["sector"], rows := [[("sector", .str "T")]] } ∧
    (tab2Step stocksScenarioDt { sectors := [], names := [], range := none }).1 =
      stocksScenarioDt ∧
    (tab2Step stocksScenario { sectors := [], names := [], range := none }).1.rows.map
        (fun r => r.get "price") =
      stocksScenario.rows.map (fun r => r.get "price") :=
  ⟨(claim_c2_amended _ _).1 (by decide),
   (claim_c2_amended _ _).2.1 (by decide),
   (claim_c2_amended _ _).2.2.2 "price" (by decide)⟩

/-- C6: when pivot generation fails on the chosen source for any reason,
the pivot workspace shows the error message inline (the `except` branch
catches every failure, so nothing escapes the view), and the news and
stocks view outputs are the same whatever pivot specification was
attempted — the failure leaves the rest of the dashboard untouched. -/
theorem claim_c6_pivot_failure_contained (news stocks : Table) (cs ss : List Scal)
    (p : StockPreds) (choice : Bool) (spec : PivotSpec) (e : PivotErr)
    (hne : (if choice then news else stocks).isEmpty = false)
    (h : pivotTable (if choice then news else stocks) spec = .error e) :
    (dashboardRender news stocks cs ss p choice spec).2.2 = .errMsg e ∧
    ∀ spec' : PivotSpec,
      (dashboardRender news stocks cs ss p choice spec).1 =
        (dashboardRender news stocks cs ss p choice spec').1 ∧
      (dashboardRender news stocks cs ss p choice spec).2.1 =
        (dashboardRender news stocks cs ss p choice spec').2.1 := by
  refine ⟨?_, fun spec' => ⟨rfl, rfl⟩⟩
  show tab3Render _ _ = _
  rw [tab3Render]
  simp only [hne, Bool.false_eq_true, if_false, h]

/-- C6 witness: a pivot over an absent index column fails, the workspace
shows the error, and the news view's output matches the one obtained under
a different (well-formed) pivot attempt. -/
theorem claim_c6_witness :
    (dashboardRender stocksScenario groupedTable [] []
        { sectors := [], names := [], range := none } false
        { index := "zz", group := none, values := "v", agg := .sum }).2.2 =
      .errMsg (.keyError "zz") ∧
    (dashboardRender stocksScenario groupedTable [] []
        { sectors := [], names := [], range := none } false
        { index := "zz", group := none, values := "v", agg := .sum }).1 =
      (dashboardRender stocksScenario groupedTable [] []
        { sectors := [], names := [], range := none } false
        { index := "a", group := none, values := "v", agg := .sum }).1 :=
  ⟨(claim_c6_pivot_failure_contained stocksScenario groupedTable [] []
      { sectors := [], names := [], range := none } false
      { index := "zz", group := none, values := "v", agg := .sum }
      (.keyError "zz") (by decide) (by decide)).1,
   ((claim_c6_pivot_failure_contained stocksScenario groupedTable [] []
      { sectors := [], names := [], range := none } false
      { index := "zz", group := none, values := "v", agg := .sum }
      (.keyError "zz") (by decide) (by decide)).2
     { index := "a", group := none, values := "v", agg := .sum }).1⟩

theorem aggValues_error_eq {f : AggFn} {vs : List Scal} {e : PivotErr}
    (h : aggValues f vs = .error e) : e = .aggError := by
  rw [aggValues.eq_def] at h
  cases f <;> dsimp only at h <;>
    repeat first
    | (injection h with h2; exact h2.symm)
    | cases h
    | split at h

theorem mapE_error_mem {α β ε : Type} {f : α → Except ε β} {l : List α} {e : ε}
    (h : mapE f l = .error e) : ∃ a ∈ l, f a = .error e := by
  induction l with
  | nil => cases h
  | cons a as ih =>
    rw [mapE] at h
    cases hfa : f a with
    | error e2 =>
      simp only [hfa] at h
      cases h
      exact ⟨a, List.mem_cons_self _ _, hfa⟩
    | ok b =>
      simp only [hfa] at h
      cases hrec : mapE f as with
      | error e2 =>
        simp only [hrec] at h
        cases h
        obtain ⟨x, hx1, hx2⟩ := ih hrec
        exact ⟨x, List.mem_cons_of_mem _ hx1, hx2⟩
      | ok rest => simp only [hrec] at h; cases h

theorem mapE_eq_map {α β ε : Type} {f : α → Except ε β} (gf : α → β) {l : List α}
    (h : ∀ a ∈ l, f a = .ok (gf a)) : mapE f l = .ok (l.map gf) := by
  induction l with
  | nil => rfl
  | cons a as ih =>
    rw [mapE, h a (List.mem_cons_self _ _),
      ih (fun x hx => h x (List.mem_cons_of_mem _ hx)), List.map_cons]

theorem mapE_ok_of_forall {α β ε : Type} {f : α → Except ε β} {l : List α}
    (h : ∀ a ∈ l, ∃ b, f a = .ok b) : ∃ r, mapE f l = .ok r := by
  induction l with
  | nil => exact ⟨[], rfl⟩
  | cons a as ih =>
    obtain ⟨b, hb⟩ := h a (List.mem_cons_self _ _)
    obtain ⟨r, hr⟩ := ih (fun x hx => h x (List.mem_cons_of_mem _ hx))
    exact ⟨b :: r, by rw [mapE, hb, hr]⟩

theorem exceptMap_error {ε α β : Type} {x : Except ε α} {g : α → β} {e : ε}
    (h : x.map g = .error e) : x = .error e := by
  cases x with
  | error e2 => cases h; rfl
  | ok a => cases h

theorem pivot_no_keyError {t : Table} {s : PivotSpec}
    (hv : s.values ∈ t.cols) (hi : s.index ∈ t.cols)
    (hg : ∀ g, s.group = some g → g ∈ t.cols) (c : String) :
    pivotTable t s ≠ .error (.keyError c) := by
  intro hcon
  rw [pivotTable, if_neg (not_not_intro hv), if_neg (not_not_intro hi)] at hcon
  cases hsg : s.group with
  | none =>
    simp only [hsg] at hcon
    obtain ⟨a, _, ha⟩ := mapE_error_mem (exceptMap_error hcon)
    cases aggValues_error_eq (exceptMap_error ha)
  | some g =>
    simp only [hsg] at hcon
    rw [if_neg (not_not_intro (hg g hsg))] at hcon
    by_cases hgi : g = s.index
    · rw [if_pos hgi] at hcon
      injection hcon with h2
      cases h2
    · rw [if_neg hgi] at hcon
      obtain ⟨a, _, ha⟩ := mapE_error_mem (exceptMap_error hcon)
      cases aggValues_error_eq (exceptMap_error ha)

/-- C10: any pivot specification assembled from tab 3's selectors on a
non-empty source — index from `all_columns`, group from `[None] +
all_columns`, values from `numeric_columns` — has a numeric value column,
and running the pivot can never fail with a missing-column `KeyError`: the
non-numeric-value and absent-column failure conditions are unreachable
through the UI. -/
theorem claim_c10_ui_failures_unreachable (t : Table) (s : PivotSpec)
    (_hne : t.isEmpty = false) (hui : uiConstructible t s) :
    t.isNumericCol s.values = true ∧
    ∀ c : String, pivotTable t s ≠ .error (.keyError c) := by
  obtain ⟨hi, hg, hvnum⟩ := hui
  rw [Table.numericColumns, List.mem_filter] at hvnum
  exact ⟨hvnum.2, fun c => pivot_no_keyError hvnum.1 hi hg c⟩

/-- C10 witness: a UI-constructible grouped count pivot on the concrete
grouped table has a numeric value column and does not fail with a
`KeyError`. -/
theorem claim_c10_witness :
    groupedTable.isNumericCol "v" = true ∧
    pivotTable groupedTable { index := "a", group := some "g", values := "v", agg := .count } ≠
      .error (.keyError "zz") :=
  ⟨(claim_c10_ui_failures_unreachable groupedTable
      { index := "a", group := some "g", values := "v", agg := .count }
      (by decide)
      ⟨by decide, fun g hgeq => by injection hgeq with h2; rw [← h2]; decide, by decide⟩).1,
   (claim_c10_ui_failures_unreachable groupedTable
      { index := "a", group := some "g", values := "v", agg := .count }
      (by decide)
      ⟨by decide, fun g hgeq => by injection hgeq with h2; rw [← h2]; decide, by decide⟩).2 "zz"⟩

theorem keyFilteredRows_subset {t : Table} {s : PivotSpec} :
    ∀ r ∈ keyFilteredRows t s, r ∈ t.rows := by
  intro r hr
  cases hsg : s.group <;> simp only [keyFilteredRows, hsg] at hr <;>
    exact (List.mem_filter.mp hr).1

theorem partition_values_numeric {t : Table} {s : PivotSpec}
    (hnum : t.isNumericCol s.values = true) (l : List Row) (hl : ∀ r ∈ l, r ∈ t.rows) :
    ∀ v ∈ l.map (fun r => r.get s.values), (v.isNum || v.isNull) = true := by
  intro v hv
  rw [List.mem_map] at hv
  obtain ⟨r, hr, hrv⟩ := hv
  rw [Table.isNumericCol, List.all_eq_true] at hnum
  rw [← hrv]
  exact hnum r (hl r hr)

theorem aggValues_ok_of_numeric (f : AggFn) {vs : List Scal}
    (h : ∀ v ∈ vs, (v.isNum || v.isNull) = true) : ∃ u, aggValues f vs = .ok u := by
  have hnn : ∀ v ∈ vs.filter (fun v => !v.isNull), v.isNum = true := by
    intro v hv
    rw [List.mem_filter] at hv
    have h2 := h v hv.1
    have h3 := hv.2
    cases hv4 : v <;> rw [hv4] at h2 h3 <;> simp [Scal.isNum, Scal.isNull] at h2 h3 ⊢
  rw [aggValues.eq_def]
  cases f <;> dsimp only
  case sum =>
    by_cases hemp : (vs.filter (fun v => !v.isNull)).isEmpty
    · exact ⟨_, by rw [if_pos hemp]⟩
    · exact ⟨_, by rw [if_neg hemp, if_pos (List.all_eq_true.mpr hnn)]⟩
  case mean =>
    by_cases hemp : (vs.filter (fun v => !v.isNull)).isEmpty
    · exact ⟨_, by rw [if_pos hemp]⟩
    · exact ⟨_, by rw [if_neg hemp, if_pos (List.all_eq_true.mpr hnn)]⟩
  case count => exact ⟨_, rfl⟩
  case max =>
    cases hc : vs.filter (fun v => !v.isNull) with
    | nil => exact ⟨_, rfl⟩
    | cons v rest =>
      have hall : ((v :: rest).all Scal.isNum) = true := by
        rw [← hc]
        exact List.all_eq_true.mpr hnn
      exact ⟨_, by dsimp only; rw [if_pos hall]⟩
  case min =>
    cases hc : vs.filter (fun v => !v.isNull) with
    | nil => exact ⟨_, rfl⟩
    | cons v rest =>
      have hall : ((v :: rest).all Scal.isNum) = true := by
        rw [← hc]
        exact List.all_eq_true.mpr hnn
      exact ⟨_, by dsimp only; rw [if_pos hall]⟩

theorem exceptMap_ok_exists {ε α β : Type} {x : Except ε α} (g : α → β)
    (h : ∃ r, x = .ok r) : ∃ P, x.map g = .ok P := by
  obtain ⟨r, hr⟩ := h
  exact ⟨g r, by rw [hr]; rfl⟩

theorem pivot_ok_of_numeric {t : Table} {s : PivotSpec}
    (hv : s.values ∈ t.cols) (hi : s.index ∈ t.cols)
    (hnum : t.isNumericCol s.values = true)
    (hg : ∀ g, s.group = some g → g ∈ t.cols ∧ g ≠ s.index) :
    ∃ P, pivotTable t s = .ok P := by
  rw [pivotTable, if_neg (not_not_intro hv), if_neg (not_not_intro hi)]
  cases hsg : s.group with
  | none =>
    simp only [hsg]
    apply exceptMap_ok_exists
    apply mapE_ok_of_forall
    intro k _
    obtain ⟨u, hu⟩ := aggValues_ok_of_numeric s.agg
      (partition_values_numeric hnum
        ((keyFilteredRows t s).filter (fun r => r.get s.index = k))
        (fun r hr => keyFilteredRows_subset r (List.mem_filter.mp hr).1))
    exact ⟨(k, u), by rw [hu]; rfl⟩
  | some g =>
    simp only [hsg]
    rw [if_neg (not_not_intro (hg g hsg).1), if_neg (hg g hsg).2]
    apply exceptMap_ok_exists
    apply mapE_ok_of_forall
    intro k _
    obtain ⟨u, hu⟩ := aggValues_ok_of_numeric s.agg
      (partition_values_numeric hnum
        ((keyFilteredRows t s).filter (fun r => (r.get s.index, r.get g) = k))
        (fun r hr => keyFilteredRows_subset r (List.mem_filter.mp hr).1))
    exact ⟨(k, u), by rw [hu]; rfl⟩

/-- C3 amended: `pd.pivot_table` fails with `KeyError` exactly on absent
columns — the value column, the index column, or the group column — and
succeeds for every specification whose columns are present and distinct
with a numeric value column; a non-numeric value column does not by itself
cause failure (for instance `count` succeeds on any present column). -/
theorem claim_c3_invalidspec_amended (t : Table) (s : PivotSpec) :
    (s.values ∉ t.cols → pivotTable t s = .error (.keyError s.values)) ∧
    (s.values ∈ t.cols → s.index ∉ t.cols →
      pivotTable t s = .error (.keyError s.index)) ∧
    (∀ g, s.group = some g → s.values ∈ t.cols → s.index ∈ t.cols →
      g ∉ t.cols → pivotTable t s = .error (.keyError g)) ∧
    (s.values ∈ t.cols → s.index ∈ t.cols → t.isNumericCol s.values = true →
      (∀ g, s.group = some g → g ∈ t.cols ∧ g ≠ s.index) →
      ∃ P, pivotTable t s = .ok P) := by
  refine ⟨?_, ?_, ?_, ?_⟩
  · intro h
    rw [pivotTable, if_pos h]
  · intro hv hi
    rw [pivotTable, if_neg (not_not_intro hv), if_pos hi]
  · intro g hsg hv hi hgn
    rw [pivotTable, if_neg (not_not_intro hv), if_neg (not_not_intro hi)]
    simp only [hsg]
    rw [if_pos hgn]
  · intro hv hi hnum hg
    exact pivot_ok_of_numeric hv hi hnum hg

/-- C3 witness: the amended failure characterisation evaluated concretely —
an absent value column and an absent index column fail with the respective
`KeyError`, and a well-formed grouped `mean` pivot on a numeric column does
not fail. -/
theorem claim_c3_witness :
    pivotTable groupedTable { index := "a", group := none, values := "zz", agg := .sum } =
      .error (.keyError "zz") ∧
    pivotTable groupedTable { index := "zz", group := none, values := "v", agg := .sum } =
      .error (.keyError "zz") ∧
    pivotTable groupedTable { index := "a", group := some "g", values := "v", agg := .mean } ≠
      .error .aggError := by
  refine ⟨?_, ?_, ?_⟩
  · exact (claim_c3_invalidspec_amended groupedTable
      { index := "a", group := none, values := "zz", agg := .sum }).1 (by decide)
  · exact (claim_c3_invalidspec_amended groupedTable
      { index := "zz", group := none, values := "v", agg := .sum }).2.1 (by decide) (by decide)
  · intro he
    obtain ⟨P, hP⟩ := (claim_c3_invalidspec_amended groupedTable
      { index := "a", group := some "g", values := "v", agg := .mean }).2.2.2
      (by decide) (by decide) (by decide)
      (fun g hgeq => by
        injection hgeq with h2
        rw [← h2]
        exact ⟨by decide, by decide⟩)
    rw [hP] at he
    cases he

theorem insertScal_perm (a : Scal) (l : List Scal) : (insertScal a l).Perm (a :: l) := by
  induction l with
  | nil => exact List.Perm.refl _
  | cons b bs ih =>
    rw [insertScal]
    split
    · exact List.Perm.refl _
    · exact (ih.cons b).trans (List.Perm.swap a b bs)

theorem sortScal_perm (l : List Scal) : (sortScal l).Perm l := by
  induction l with
  | nil => exact List.Perm.refl _
  | cons a as ih => exact (insertScal_perm a (sortScal as)).trans (ih.cons a)

theorem sortScal_mem {x : Scal} {l : List Scal} : x ∈ sortScal l ↔ x ∈ l :=
  (sortScal_perm l).mem_iff

theorem sortScal_nodup {l : List Scal} (h : l.Nodup) : (sortScal l).Nodup :=
  (sortScal_perm l).nodup_iff.mpr h

theorem sortScal_length (l : List Scal) : (sortScal l).length = l.length :=
  (sortScal_perm l).length_eq

theorem except_map_ok {ε α β : Type} (g : α → β) (a : α) :
    ((Except.ok a : Except ε α)).map g = .ok (g a) := rfl

theorem length_filter_map_eq {α β : Type} (f : α → β) (p : β → Bool) (l : List α) :
    ((l.map f).filter p).length = (l.filter (fun a => p (f a))).length := by
  induction l with
  | nil => rfl
  | cons a as ih =>
    by_cases hp : p (f a) <;> simp [List.filter_cons, hp, ih]

theorem length_filter_decomp {α : Type} (l : List α) (p q : α → Bool) :
    ((l.filter q).filter p).length + ((l.filter (fun a => !q a)).filter p).length
      = (l.filter p).length := by
  induction l with
  | nil => rfl
  | cons a as ih =>
    by_cases hq : q a <;> by_cases hp : p a <;>
      simp [List.filter_cons, hq, hp] at ih ⊢ <;> omega

theorem filter_ne_then_eq {α κ : Type} [DecidableEq κ] {key : α → κ} {k k2 : κ}
    (hne : k2 ≠ k) (l : List α) :
    (l.filter (fun x => !(decide (key x = k)))).filter (fun x => key x = k2)
      = l.filter (fun x => key x = k2) := by
  induction l with
  | nil => rfl
  | cons a as ih =>
    by_cases hk : key a = k
    · have hk2 : ¬(key a = k2) := fun hh => hne (by rw [← hh, hk])
      simp [List.filter_cons, hk, hk2, hne, Ne.symm hne, ih]
    · by_cases hk2 : key a = k2 <;>
        simp [List.filter_cons, hk, hk2, hne, Ne.symm hne, ih]

theorem sum_partition_lengths {α κ : Type} [DecidableEq κ] (key : α → κ) (p : α → Bool) :
    ∀ ks : List κ, ks.Nodup → ∀ l : List α, (∀ x ∈ l, key x ∈ ks) →
      (ks.map (fun k => ((l.filter (fun x => key x = k)).filter p).length)).sum
        = (l.filter p).length := by
  intro ks
  induction ks with
  | nil =>
    intro _ l hcov
    cases l with
    | nil => rfl
    | cons a as => exact absurd (hcov a (List.mem_cons_self _ _)) (List.not_mem_nil _)
  | cons k ks ih =>
    intro hnd l hcov
    rw [List.map_cons, List.sum_cons]
    have hmapcong : ks.map (fun k2 => ((l.filter (fun x => key x = k2)).filter p).length)
        = ks.map (fun k2 =>
            (((l.filter (fun x => !(decide (key x = k)))).filter
              (fun x => key x = k2)).filter p).length) :=
      List.map_congr_left (fun k2 hk2 => by
        rw [filter_ne_then_eq (fun he => (List.nodup_cons.mp hnd).1 (by rw [← he]; exact hk2)) l])
    rw [hmapcong, ih (List.nodup_cons.mp hnd).2 _ (fun x hx => by
      have hx2 := List.mem_filter.mp hx
      have hmem := hcov x hx2.1
      rcases List.mem_cons.mp hmem with he | he
      · exfalso
        have h3 : (!(decide (key x = k))) = true := hx2.2
        rw [he] at h3
        simp at h3
      · exact he)]
    exact length_filter_decomp l p (fun x => decide (key x = k))

theorem sum_map_natCast {α : Type} (f : α → ℕ) (l : List α) :
    (l.map (fun a => ((f a : ℕ) : ℚ))).sum = ((l.map f).sum : ℚ) := by
  induction l with
  | nil => simp
  | cons a as ih => simp [ih]

theorem flatten_map_singleton {α β : Type} (f : α → β) (l : List α) :
    (l.map (fun a => [f a])).flatten = l.map f := by
  induction l with
  | nil => rfl
  | cons a as ih => simp [ih]

theorem lookup_map_graph {κ β : Type} [BEq κ] [LawfulBEq κ] (gf : κ → β)
    (keys : List κ) (k : κ) :
    List.lookup k (keys.map (fun x => (x, gf x))) =
      if k ∈ keys then some (gf k) else none := by
  induction keys with
  | nil => simp [List.lookup]
  | cons a as ih =>
    rw [List.map_cons, List.lookup_cons]
    by_cases hk : k = a
    · subst hk
      simp
    · have hb : (k == a) = false := beq_eq_false_iff_ne.mpr hk
      simp [hb, ih, List.mem_cons, hk]

theorem filter_pair_decomp {α κ1 κ2 : Type} [DecidableEq κ1] [DecidableEq κ2]
    (k1 : α → κ1) (k2 : α → κ2) (i : κ1) (g : κ2) (l : List α) :
    l.filter (fun x => (k1 x, k2 x) = (i, g))
      = (l.filter (fun x => k1 x = i)).filter (fun x => k2 x = g) := by
  rw [List.filter_filter]
  apply List.filter_congr
  intro x _
  by_cases h1 : k1 x = i <;> by_cases h2 : k2 x = g <;>
    simp [h1, h2, Prod.ext_iff]

theorem aggValues_count (vs : List Scal) :
    aggValues .count vs = .ok (.num ((vs.filter (fun v => !v.isNull)).length)) := rfl

theorem pivot_count_none_eq (t : Table) (s : PivotSpec)
    (hv : s.values ∈ t.cols) (hi : s.index ∈ t.cols) (hsg : s.group = none)
    (hagg : s.agg = .count) :
    pivotTable t s = .ok
      { indexName := s.index
        colNames := [s.values]
        rows := (sortScal ((keyFilteredRows t s).map (fun r => r.get s.index)).dedup).map
          (fun i => (i, [Scal.num (countCell1 t s i)])) } := by
  rw [pivotTable, if_neg (not_not_intro hv), if_neg (not_not_intro hi)]
  simp only [hsg]
  have hfk : ∀ k ∈ ((keyFilteredRows t s).map (fun r => r.get s.index)).dedup,
      (aggValues s.agg (((keyFilteredRows t s).filter (fun r => r.get s.index = k)).map
        (fun r => r.get s.values))).map (fun v => (k, v))
        = Except.ok (k, Scal.num (countCell1 t s k)) := by
    intro k _
    rw [hagg, aggValues_count, except_map_ok]
    have hlen := length_filter_map_eq (fun r : Row => r.get s.values) (fun v => !v.isNull)
      ((keyFilteredRows t s).filter (fun r => r.get s.index = k))
    rw [hlen, countCell1]
  rw [mapE_eq_map (fun k => (k, Scal.num (countCell1 t s k))) hfk, except_map_ok]
  have hkept : ((((keyFilteredRows t s).map (fun r => r.get s.index)).dedup).map
        (fun k => (k, Scal.num (countCell1 t s k)))).filter (fun kv => !kv.2.isNull)
      = (((keyFilteredRows t s).map (fun r => r.get s.index)).dedup).map
        (fun k => (k, Scal.num (countCell1 t s k))) :=
    List.filter_eq_self.mpr (fun kv hkv => by
      obtain ⟨k, _, hk⟩ := List.mem_map.mp hkv
      rw [← hk]
      rfl)
  have hfst : (((((keyFilteredRows t s).map (fun r => r.get s.index)).dedup).map
        (fun k => (k, Scal.num (countCell1 t s k)))).map (fun kv => kv.1))
      = (((keyFilteredRows t s).map (fun r => r.get s.index)).dedup) := by
    rw [List.map_map]
    calc ((((keyFilteredRows t s).map (fun r => r.get s.index)).dedup).map
          ((fun kv => kv.1) ∘ (fun k => (k, Scal.num (countCell1 t s k)))))
        = ((((keyFilteredRows t s).map (fun r => r.get s.index)).dedup).map id) :=
          List.map_congr_left (fun k _ => rfl)
      _ = (((keyFilteredRows t s).map (fun r => r.get s.index)).dedup) := List.map_id _
  simp only [hkept]
  rw [hfst, List.dedup_idem]
  refine congrArg Except.ok ?_
  simp only [PivotResult.mk.injEq, true_and]
  refine List.map_congr_left ?_
  intro i hi2
  have hmem : i ∈ ((keyFilteredRows t s).map (fun r => r.get s.index)).dedup := by
    have := sortScal_mem.mp hi2
    simpa using this
  rw [lookup_map_graph (fun k => Scal.num (countCell1 t s k)), if_pos hmem]
  rfl

theorem pivot_count_some_eq (t : Table) (s : PivotSpec) (g : String)
    (hv : s.values ∈ t.cols) (hi : s.index ∈ t.cols) (hsg : s.group = some g)
    (hgm : g ∈ t.cols) (hgi : g ≠ s.index) (hagg : s.agg = .count) :
    pivotTable t s = .ok
      { indexName := s.index
        colNames := (sortScal ((((keyFilteredRows t s).map
            (fun r => (r.get s.index, r.get g))).dedup).map (fun k => k.2)).dedup).map
          Scal.render
        rows := (sortScal ((((keyFilteredRows t s).map
            (fun r => (r.get s.index, r.get g))).dedup).map (fun k => k.1)).dedup).map
          (fun i => (i, (sortScal ((((keyFilteredRows t s).map
              (fun r => (r.get s.index, r.get g))).dedup).map (fun k => k.2)).dedup).map
            (fun gv => Scal.num (countCell2 t s g (i, gv))))) } := by
  rw [pivotTable, if_neg (not_not_intro hv), if_neg (not_not_intro hi)]
  simp only [hsg]
  rw [if_neg (not_not_intro hgm), if_neg hgi]
  have hfk : ∀ k ∈ ((keyFilteredRows t s).map (fun r => (r.get s.index, r.get g))).dedup,
      (aggValues s.agg (((keyFilteredRows t s).filter
          (fun r => (r.get s.index, r.get g) = k)).map
        (fun r => r.get s.values))).map (fun v => (k, v))
        = Except.ok (k, Scal.num (countCell2 t s g k)) := by
    intro k _
    rw [hagg, aggValues_count, except_map_ok]
    have hlen := length_filter_map_eq (fun r : Row => r.get s.values) (fun v => !v.isNull)
      ((keyFilteredRows t s).filter (fun r => (r.get s.index, r.get g) = k))
    rw [hlen, countCell2]
  rw [mapE_eq_map (fun k => (k, Scal.num (countCell2 t s g k))) hfk, except_map_ok]
  have hkept : ((((keyFilteredRows t s).map (fun r => (r.get s.index, r.get g))).dedup).map
        (fun k => (k, Scal.num (countCell2 t s g k)))).filter (fun kv => !kv.2.isNull)
      = (((keyFilteredRows t s).map (fun r => (r.get s.index, r.get g))).dedup).map
        (fun k => (k, Scal.num (countCell2 t s g k))) :=
    List.filter_eq_self.mpr (fun kv hkv => by
      obtain ⟨k, _, hk⟩ := List.mem_map.mp hkv
      rw [← hk]
      rfl)
  have hfst : (((((keyFilteredRows t s).map (fun r => (r.get s.index, r.get g))).dedup).map
        (fun k => (k, Scal.num (countCell2 t s g k)))).map (fun kv => kv.1.1))
      = ((((keyFilteredRows t s).map (fun r => (r.get s.index, r.get g))).dedup).map
          (fun k => k.1)) := by
    rw [List.map_map]
    exact List.map_congr_left (fun k _ => rfl)
  have hsnd : (((((keyFilteredRows t s).map (fun r => (r.get s.index, r.get g))).dedup).map
        (fun k => (k, Scal.num (countCell2 t s g k)))).map (fun kv => kv.1.2))
      = ((((keyFilteredRows t s).map (fun r => (r.get s.index, r.get g))).dedup).map
          (fun k => k.2)) := by
    rw [List.map_map]
    exact List.map_congr_left (fun k _ => rfl)
  simp only [hkept]
  rw [hfst, hsnd]
  refine congrArg Except.ok ?_
  simp only [PivotResult.mk.injEq, true_and]
  refine List.map_congr_left ?_
  intro i hi2
  refine congrArg (Prod.mk i) ?_
  refine List.map_congr_left ?_
  intro gv hgv
  by_cases hk : (i, gv) ∈ ((keyFilteredRows t s).map
      (fun r => (r.get s.index, r.get g))).dedup
  · rw [lookup_map_graph (fun k => Scal.num (countCell2 t s g k)), if_pos hk]
    rfl
  · rw [lookup_map_graph (fun k => Scal.num (countCell2 t s g k)), if_neg hk]
    have hzero : countCell2 t s g (i, gv) = 0 := by
      rw [countCell2]
      have hnil : (keyFilteredRows t s).filter
          (fun r => (r.get s.index, r.get g) = (i, gv)) = [] := by
        rw [List.filter_eq_nil_iff]
        intro r hr hpr
        exact hk (List.mem_dedup.mpr (List.mem_map.mpr
          ⟨r, hr, by simpa using hpr⟩))
      rw [hnil]
      rfl
    rw [hzero]
    simp

theorem cellSum_single (name : String) (cols : List String) (idx : List Scal)
    (cnt : Scal → ℕ) :
    PivotResult.cellSum
      { indexName := name
        colNames := cols
        rows := idx.map (fun i => (i, [Scal.num (cnt i)])) }
      = ((idx.map cnt).sum : ℚ) := by
  rw [PivotResult.cellSum]
  induction idx with
  | nil => simp
  | cons a as ih => simp_all [sum_map_natCast, Scal.toQ]

theorem cellSum_grid (name : String) (cols : List String) (idx grp : List Scal)
    (cnt : Scal → Scal → ℕ) :
    PivotResult.cellSum
      { indexName := name
        colNames := cols
        rows := idx.map (fun i => (i, grp.map (fun gv => Scal.num (cnt i gv)))) }
      = ((idx.map (fun i => (grp.map (fun gv => cnt i gv)).sum)).sum : ℚ) := by
  rw [PivotResult.cellSum]
  induction idx with
  | nil => simp
  | cons a as ih =>
    simp_all [sum_map_natCast]
    exact congrArg List.sum (List.map_congr_left (fun gv _ => rfl))

theorem sum_countCell1 (t : Table) (s : PivotSpec) {ks : List Scal} (hnd : ks.Nodup)
    (hcov : ∀ r ∈ keyFilteredRows t s, r.get s.index ∈ ks) :
    (ks.map (fun i => countCell1 t s i)).sum = countedRows t s := by
  have h1 : ks.map (fun i => countCell1 t s i)
      = ks.map (fun k => (((keyFilteredRows t s).filter (fun x => x.get s.index = k)).filter
          (fun r => !(r.get s.values).isNull)).length) :=
    List.map_congr_left (fun k _ => by rw [countCell1])
  rw [h1, countedRows]
  exact sum_partition_lengths (fun r : Row => r.get s.index)
    (fun r => !(r.get s.values).isNull) ks hnd (keyFilteredRows t s) hcov

theorem sum_countCell2 (t : Table) (s : PivotSpec) (g : String)
    {is gs : List Scal} (hndI : is.Nodup) (hndG : gs.Nodup)
    (hcovI : ∀ r ∈ keyFilteredRows t s, r.get s.index ∈ is)
    (hcovG : ∀ r ∈ keyFilteredRows t s, r.get g ∈ gs) :
    (is.map (fun i => (gs.map (fun gv => countCell2 t s g (i, gv))).sum)).sum
      = countedRows t s := by
  have hin : ∀ i : Scal, (gs.map (fun gv => countCell2 t s g (i, gv))).sum
      = countCell1 t s i := by
    intro i
    have h1 : gs.map (fun gv => countCell2 t s g (i, gv))
        = gs.map (fun k => ((((keyFilteredRows t s).filter
            (fun x => x.get s.index = i)).filter (fun x => x.get g = k)).filter
            (fun r => !(r.get s.values).isNull)).length) :=
      List.map_congr_left (fun gv _ => by
        rw [countCell2, filter_pair_decomp (fun r : Row => r.get s.index)
          (fun r : Row => r.get g) i gv])
    rw [h1, countCell1]
    exact sum_partition_lengths (fun r : Row => r.get g)
      (fun r => !(r.get s.values).isNull) gs hndG
      ((keyFilteredRows t s).filter (fun x => x.get s.index = i))
      (fun x hx => hcovG x (List.mem_filter.mp hx).1)
  have h2 : is.map (fun i => (gs.map (fun gv => countCell2 t s g (i, gv))).sum)
      = is.map (fun i => countCell1 t s i) :=
    List.map_congr_left (fun i _ => hin i)
  rw [h2]
  exact sum_countCell1 t s hndI hcovI

/-- C1 amended: in a `count` pivot each cell equals the number of source
rows of its (index, group) partition whose value cell is non-null — not the
full partition size — with rows carrying a null index (or group) key
excluded altogether; consequently the cells of a count pivot over the full
table sum to the number of rows whose key columns and value column are all
non-null, not to the table's row count. -/
theorem claim_c1_count_pivot_amended (t : Table) (s : PivotSpec) (P : PivotResult)
    (hagg : s.agg = .count) (h : pivotTable t s = .ok P) :
    P.cellSum = (countedRows t s : ℚ) ∧
    (s.group = none → ∀ pr ∈ P.rows, pr.2 = [Scal.num (countCell1 t s pr.1)]) ∧
    (∀ g, s.group = some g → ∃ gvs : List Scal, gvs.Nodup ∧
      P.colNames = gvs.map Scal.render ∧
      ∀ pr ∈ P.rows, pr.2 = gvs.map (fun gv => Scal.num (countCell2 t s g (pr.1, gv)))) := by
  have hv : s.values ∈ t.cols := by
    by_contra hv
    rw [pivotTable, if_pos hv] at h
    cases h
  have hi : s.index ∈ t.cols := by
    by_contra hi
    rw [pivotTable, if_neg (not_not_intro hv), if_pos hi] at h
    cases h
  cases hsg : s.group with
  | none =>
    have he := pivot_count_none_eq t s hv hi hsg hagg
    rw [h] at he
    injection he with he
    subst he
    refine ⟨?_, ?_, ?_⟩
    · rw [cellSum_single]
      refine congrArg (fun n : ℕ => (n : ℚ)) ?_
      refine sum_countCell1 t s ?_ ?_
      · exact sortScal_nodup (List.nodup_dedup _)
      · intro r hr
        exact sortScal_mem.mpr (List.mem_dedup.mpr (List.mem_map.mpr ⟨r, hr, rfl⟩))
    · intro _ pr hpr
      obtain ⟨i, _, rfl⟩ := List.mem_map.mp hpr
      rfl
    · intro g2 hg2
      cases hg2
  | some g =>
    have hgm : g ∈ t.cols := by
      by_contra hgm
      rw [pivotTable, if_neg (not_not_intro hv), if_neg (not_not_intro hi)] at h
      simp only [hsg] at h
      rw [if_pos hgm] at h
      cases h
    have hgi : g ≠ s.index := by
      intro hgi
      rw [pivotTable, if_neg (not_not_intro hv), if_neg (not_not_intro hi)] at h
      simp only [hsg] at h
      rw [if_neg (not_not_intro hgm), if_pos hgi] at h
      cases h
    have he := pivot_count_some_eq t s g hv hi hsg hgm hgi hagg
    rw [h] at he
    injection he with he
    subst he
    refine ⟨?_, ?_, ?_⟩
    · rw [cellSum_grid]
      refine congrArg (fun n : ℕ => (n : ℚ)) ?_
      refine sum_countCell2 t s g ?_ ?_ ?_ ?_
      · exact sortScal_nodup (List.nodup_dedup _)
      · exact sortScal_nodup (List.nodup_dedup _)
      · intro r hr
        exact sortScal_mem.mpr (List.mem_dedup.mpr (List.mem_map.mpr
          ⟨(r.get s.index, r.get g), List.mem_dedup.mpr (List.mem_map.mpr ⟨r, hr, rfl⟩), rfl⟩))
      · intro r hr
        exact sortScal_mem.mpr (List.mem_dedup.mpr (List.mem_map.mpr
          ⟨(r.get s.index, r.get g), List.mem_dedup.mpr (List.mem_map.mpr ⟨r, hr, rfl⟩), rfl⟩))
    · intro hnone
      cases hnone
    · intro g2 hg2
      injection hg2 with hg2
      subst hg2
      refine ⟨_, sortScal_nodup (List.nodup_dedup _), rfl, ?_⟩
      intro pr hpr
      obtain ⟨i, _, rfl⟩ := List.mem_map.mp hpr
      rfl

/-- C1 witness: the amended count-pivot law evaluated on the two-row
scenario table — the single cell holds 2 and equals the number of rows with
non-null key and value cells. -/
theorem claim_c1_witness :
    PivotResult.cellSum
      { indexName := "sector"
        colNames := ["price"]
        rows := [(.str "Tech", [.num 2])] }
      = ((countedRows stocksScenario
          { index := "sector", group := none, values := "price", agg := .count }) : ℚ) :=
  (claim_c1_count_pivot_amended stocksScenario
    { index := "sector", group := none, values := "price", agg := .count }
    { indexName := "sector"
      colNames := ["price"]
      rows := [(.str "Tech", [.num 2])] }
    rfl (by decide)).1

theorem scal_isNull_false_of_isNum {v : Scal} (h : v.isNum = true) : v.isNull = false := by
  cases v <;> simp_all [Scal.isNum, Scal.isNull]

theorem aggValues_num_of_nonempty {f : AggFn} {vs : List Scal} (hne : vs ≠ [])
    (hnum : ∀ v ∈ vs, v.isNum = true) : ∃ q : ℚ, aggValues f vs = .ok (.num q) := by
  have hfil : vs.filter (fun v => !v.isNull) = vs :=
    List.filter_eq_self.mpr (fun v hv => by
      rw [scal_isNull_false_of_isNum (hnum v hv)]
      rfl)
  have hall : vs.all Scal.isNum = true := List.all_eq_true.mpr hnum
  cases vs with
  | nil => exact absurd rfl hne
  | cons v rest =>
    rw [aggValues.eq_def]
    cases f <;> dsimp only <;> rw [hfil]
    case sum =>
      rw [if_neg (by simp), if_pos hall]
      exact ⟨_, rfl⟩
    case mean =>
      rw [if_neg (by simp), if_pos hall]
      exact ⟨_, rfl⟩
    case count => exact ⟨_, rfl⟩
    case max =>
      dsimp only
      rw [if_pos hall]
      exact ⟨_, rfl⟩
    case min =>
      dsimp only
      rw [if_pos hall]
      exact ⟨_, rfl⟩

theorem pivot_grouped_eq (t : Table) (s : PivotSpec) (g : String)
    (hv : s.values ∈ t.cols) (hi : s.index ∈ t.cols) (hsg : s.group = some g)
    (hgm : g ∈ t.cols) (hgi : g ≠ s.index)
    (hok : ∀ k ∈ ((keyFilteredRows t s).map (fun r => (r.get s.index, r.get g))).dedup,
      ∃ q : ℚ, aggValues s.agg (((keyFilteredRows t s).filter
          (fun r => (r.get s.index, r.get g) = k)).map (fun r => r.get s.values))
        = .ok (.num q)) :
    pivotTable t s = .ok
      { indexName := s.index
        colNames := (sortScal ((((keyFilteredRows t s).map
            (fun r => (r.get s.index, r.get g))).dedup).map (fun k => k.2)).dedup).map
          Scal.render
        rows := (sortScal ((((keyFilteredRows t s).map
            (fun r => (r.get s.index, r.get g))).dedup).map (fun k => k.1)).dedup).map
          (fun i => (i, (sortScal ((((keyFilteredRows t s).map
              (fun r => (r.get s.index, r.get g))).dedup).map (fun k => k.2)).dedup).map
            (fun gv => (List.lookup (i, gv)
              ((((keyFilteredRows t s).map
                (fun r => (r.get s.index, r.get g))).dedup).map
                  (fun k => (k, aggOf t s g k)))).getD (.num 0)))) } := by
  rw [pivotTable, if_neg (not_not_intro hv), if_neg (not_not_intro hi)]
  simp only [hsg]
  rw [if_neg (not_not_intro hgm), if_neg hgi]
  have haggOf : ∀ k ∈ ((keyFilteredRows t s).map
      (fun r => (r.get s.index, r.get g))).dedup, ∃ q : ℚ, aggOf t s g k = .num q := by
    intro k hk
    obtain ⟨q, hq⟩ := hok k hk
    exact ⟨q, by rw [aggOf, hq]⟩
  have hfk : ∀ k ∈ ((keyFilteredRows t s).map (fun r => (r.get s.index, r.get g))).dedup,
      (aggValues s.agg (((keyFilteredRows t s).filter
          (fun r => (r.get s.index, r.get g) = k)).map
        (fun r => r.get s.values))).map (fun v => (k, v))
        = Except.ok (k, aggOf t s g k) := by
    intro k hk
    obtain ⟨q, hq⟩ := hok k hk
    rw [hq, except_map_ok, aggOf, hq]
  rw [mapE_eq_map (fun k => (k, aggOf t s g k)) hfk, except_map_ok]
  have hkept : ((((keyFilteredRows t s).map (fun r => (r.get s.index, r.get g))).dedup).map
        (fun k => (k, aggOf t s g k))).filter (fun kv => !kv.2.isNull)
      = (((keyFilteredRows t s).map (fun r => (r.get s.index, r.get g))).dedup).map
        (fun k => (k, aggOf t s g k)) :=
    List.filter_eq_self.mpr (fun kv hkv => by
      obtain ⟨k, hk, hkk⟩ := List.mem_map.mp hkv
      obtain ⟨q, hq⟩ := haggOf k hk
      rw [← hkk]
      show (!(aggOf t s g k).isNull) = true
      rw [hq]
      rfl)
  have hfst : (((((keyFilteredRows t s).map (fun r => (r.get s.index, r.get g))).dedup).map
        (fun k => (k, aggOf t s g k))).map (fun kv => kv.1.1))
      = ((((keyFilteredRows t s).map (fun r => (r.get s.index, r.get g))).dedup).map
          (fun k => k.1)) := by
    rw [List.map_map]
    exact List.map_congr_left (fun k _ => rfl)
  have hsnd : (((((keyFilteredRows t s).map (fun r => (r.get s.index, r.get g))).dedup).map
        (fun k => (k, aggOf t s g k))).map (fun kv => kv.1.2))
      = ((((keyFilteredRows t s).map (fun r => (r.get s.index, r.get g))).dedup).map
          (fun k => k.2)) := by
    rw [List.map_map]
    exact List.map_congr_left (fun k _ => rfl)
  simp only [hkept]
  rw [hfst, hsnd]

theorem dedup_map_dedup_length {β γ : Type} [DecidableEq β] [DecidableEq γ]
    (f : β → γ) (l : List β) :
    (((l.dedup).map f).dedup).length = ((l.map f).dedup).length := by
  rw [← List.card_toFinset, ← List.card_toFinset]
  congr 1
  ext x
  simp [List.mem_dedup]

theorem zip_map_self_mem {α β : Type} {l : List α} {f : α → β} {x : α × β}
    (h : x ∈ l.zip (l.map f)) : x.2 = f x.1 := by
  induction l with
  | nil => cases h
  | cons a as ih =>
    rw [List.map_cons, List.zip_cons_cons] at h
    rcases List.mem_cons.mp h with h | h
    · subst h
      rfl
    · exact ih h

/-- C4 amended: with distinct, present index/group columns, a numeric value
column and no nulls in those three columns, the grouped pivot succeeds and
its result has exactly one row per distinct index value and one value
column per distinct group value, with every (index, group) combination
present and combinations having no source rows filled with 0. -/
theorem claim_c4_pivot_shape_amended (t : Table) (s : PivotSpec) (g : String)
    (hsg : s.group = some g) (hv : s.values ∈ t.cols) (hi : s.index ∈ t.cols)
    (hgm : g ∈ t.cols) (hgi : g ≠ s.index) (hnum : t.isNumericCol s.values = true)
    (hnn : ∀ r ∈ t.rows, (r.get s.index).isNull = false ∧ (r.get g).isNull = false ∧
      (r.get s.values).isNull = false) :
    ∃ (P : PivotResult) (gvs : List Scal), pivotTable t s = .ok P ∧
      P.rows.length = ((t.rows.map (fun r => r.get s.index)).dedup).length ∧
      gvs.Nodup ∧
      P.colNames = gvs.map Scal.render ∧
      gvs.length = ((t.rows.map (fun r => r.get g)).dedup).length ∧
      (∀ pr ∈ P.rows, pr.2.length = gvs.length) ∧
      (∀ pr ∈ P.rows, ∀ x ∈ gvs.zip pr.2,
        t.rows.filter (fun r => r.get s.index = pr.1 ∧ r.get g = x.1) = [] →
          x.2 = .num 0) := by
  have hkf : keyFilteredRows t s = t.rows := by
    simp only [keyFilteredRows, hsg]
    refine List.filter_eq_self.mpr (fun r hr => ?_)
    rw [(hnn r hr).1, (hnn r hr).2.1]
    rfl
  have hok : ∀ k ∈ ((keyFilteredRows t s).map (fun r => (r.get s.index, r.get g))).dedup,
      ∃ q : ℚ, aggValues s.agg (((keyFilteredRows t s).filter
          (fun r => (r.get s.index, r.get g) = k)).map (fun r => r.get s.values))
        = .ok (.num q) := by
    intro k hk
    obtain ⟨r0, hr0, hkey⟩ := List.mem_map.mp (List.mem_dedup.mp hk)
    apply aggValues_num_of_nonempty
    · intro hnil
      rw [List.map_eq_nil_iff] at hnil
      have hr0f : r0 ∈ (keyFilteredRows t s).filter
          (fun r => (r.get s.index, r.get g) = k) :=
        List.mem_filter.mpr ⟨hr0, by simp [hkey]⟩
      rw [hnil] at hr0f
      cases hr0f
    · intro v hv2
      obtain ⟨r, hrf, hrv⟩ := List.mem_map.mp hv2
      have hr : r ∈ t.rows := by
        rw [← hkf]
        exact (List.mem_filter.mp hrf).1
      have h1 : ((r.get s.values).isNum || (r.get s.values).isNull) = true := by
        rw [Table.isNumericCol, List.all_eq_true] at hnum
        exact hnum r hr
      rw [(hnn r hr).2.2] at h1
      rw [← hrv]
      simpa using h1
  have hpiv := pivot_grouped_eq t s g hv hi hsg hgm hgi hok
  refine ⟨_, sortScal ((((keyFilteredRows t s).map
      (fun r => (r.get s.index, r.get g))).dedup).map (fun k => k.2)).dedup,
    hpiv, ?_, ?_, rfl, ?_, ?_, ?_⟩
  · rw [List.length_map, sortScal_length,
      dedup_map_dedup_length (fun k : Scal × Scal => k.1), List.map_map]
    have hcomp : ((keyFilteredRows t s).map ((fun k : Scal × Scal => k.1) ∘
        (fun r => (r.get s.index, r.get g))))
        = ((keyFilteredRows t s).map (fun r => r.get s.index)) :=
      List.map_congr_left (fun r _ => rfl)
    rw [hcomp, hkf]
  · exact sortScal_nodup (List.nodup_dedup _)
  · rw [sortScal_length,
      dedup_map_dedup_length (fun k : Scal × Scal => k.2), List.map_map]
    have hcomp : ((keyFilteredRows t s).map ((fun k : Scal × Scal => k.2) ∘
        (fun r => (r.get s.index, r.get g))))
        = ((keyFilteredRows t s).map (fun r => r.get g)) :=
      List.map_congr_left (fun r _ => rfl)
    rw [hcomp, hkf]
  · intro pr hpr
    obtain ⟨i, _, rfl⟩ := List.mem_map.mp hpr
    exact List.length_map _ _
  · intro pr hpr x hx hempty
    obtain ⟨i, _, rfl⟩ := List.mem_map.mp hpr
    rw [zip_map_self_mem hx]
    have hnk : (i, x.1) ∉ ((keyFilteredRows t s).map
        (fun r => (r.get s.index, r.get g))).dedup := by
      intro hin
      obtain ⟨r, hr, hkey⟩ := List.mem_map.mp (List.mem_dedup.mp hin)
      have h2 := List.filter_eq_nil_iff.mp hempty r (by rw [← hkf]; exact hr)
      apply h2
      have h3 : r.get s.index = i ∧ r.get g = x.1 := by
        have := Prod.mk.injEq (r.get s.index) (r.get g) i x.1 ▸ hkey
        exact Prod.mk.inj hkey
      simp [h3.1, h3.2]
    rw [lookup_map_graph (fun k => aggOf t s g k), if_neg hnk]
    rfl

/-- C4 witness: the amended shape law applied to the concrete grouped
table (two index values, two group values, one empty combination). -/
theorem claim_c4_witness :
    ∃ (P : PivotResult) (gvs : List Scal),
      pivotTable groupedTable
        { index := "a", group := some "g", values := "v", agg := .sum } = .ok P ∧
      P.rows.length = ((groupedTable.rows.map (fun r => r.get "a")).dedup).length ∧
      gvs.Nodup ∧
      P.colNames = gvs.map Scal.render ∧
      gvs.length = ((groupedTable.rows.map (fun r => r.get "g")).dedup).length ∧
      (∀ pr ∈ P.rows, pr.2.length = gvs.length) ∧
      (∀ pr ∈ P.rows, ∀ x ∈ gvs.zip pr.2,
        groupedTable.rows.filter (fun r => r.get "a" = pr.1 ∧ r.get "g" = x.1) = [] →
          x.2 = .num 0) :=
  claim_c4_pivot_shape_amended groupedTable
    { index := "a", group := some "g", values := "v", agg := .sum } "g"
    rfl (by decide) (by decide) (by decide) (by decide) (by decide) (by decide)
